import Mathlib

/-!
Verification of the Unified Price Engine of the `reckon-ai-indexer`
repository.

The development shallowly embeds the TypeScript source:
* `UnifiedPriceEngine.calculateWeightedAverage`, `calculateDeviation`,
  `detectArbitrage`, `calculateFreshness` and `getUnifiedPrice` from
  `src/services/unified-price-engine.ts`;
* the subscription registry and broadcast fan-out of
  `src/websocket/websocket-manager.ts`.

JavaScript numbers are modelled as exact rationals (`ℚ`); the square root
in the deviation computation forces that one function into `ℝ`.
Timestamps are rationals (milliseconds).  Promise results of fallible
collaborators (the two source adapters, the Redis cache) are passed in
explicitly as `Option` / `Except` values, so the stateful engine becomes a
pure function of its environment.
-/

namespace Reckon

/-- A price observation collected from one source adapter, mirroring the
`PriceSource` interface of `unified-price-engine.ts`. -/
structure PriceSource where
  source : String
  price : ℚ
  confidence : ℚ
  timestamp : ℚ
  latency : ℚ
deriving DecidableEq, Repr

/-- The recency weight of one observation:
`Math.max(0, 1 - (now - source.timestamp) / 300000)` (5 minute decay). -/
def ageWeight (now : ℚ) (s : PriceSource) : ℚ :=
  max 0 (1 - (now - s.timestamp) / 300000)

/-- `UnifiedPriceEngine.calculateWeightedAverage`.  Returns `none` exactly
where the TypeScript throws (`sources.length === 0`); otherwise the pair
`(price, confidence)`.  The `reduce` accumulations are `List.foldl` with
initial value `0`, exactly as in the source. -/
def calculateWeightedAverage (now : ℚ) (sources : List PriceSource) :
    Option (ℚ × ℚ) :=
  match sources with
  | [] => none
  | s :: rest =>
    if rest.length = 0 then
      some (s.price, s.confidence)
    else
      let l := s :: rest
      let totalWeight :=
        l.foldl (fun sum src => sum + src.confidence * ageWeight now src) 0
      if totalWeight = 0 then
        let avgPrice := l.foldl (fun sum t => sum + t.price) 0 / (l.length : ℚ)
        let avgConfidence :=
          l.foldl (fun sum t => sum + t.confidence) 0 / (l.length : ℚ)
        some (avgPrice, avgConfidence)
      else
        let weightedPrice :=
          l.foldl
            (fun sum src =>
              sum + src.price * (src.confidence * ageWeight now src / totalWeight))
            0
        let avgConfidence :=
          l.foldl (fun sum t => sum + t.confidence) 0 / (l.length : ℚ)
        some (weightedPrice, avgConfidence)

/-- `UnifiedPriceEngine.calculateDeviation`: population standard deviation
of the prices over their mean, times 100; `0` for fewer than two sources.
`Math.sqrt` forces the result into `ℝ`. -/
noncomputable def calculateDeviation (sources : List PriceSource) : ℝ :=
  if sources.length ≤ 1 then 0
  else
    let prices : List ℝ := sources.map (fun s => (s.price : ℝ))
    let avgPrice := prices.foldl (fun sum p => sum + p) 0 / (prices.length : ℝ)
    let variance :=
      prices.foldl (fun sum p => sum + (p - avgPrice) ^ 2) 0 / (prices.length : ℝ)
    Real.sqrt variance / avgPrice * 100

/-- An arbitrage opportunity record, as produced by `detectArbitrage`. -/
structure ArbitrageOpportunity where
  buy_source : String
  sell_source : String
  spread_percentage : ℚ
  profit_potential : ℚ
  confidence : ℚ
deriving DecidableEq, Repr

/-- The ordered pairs `(sources[i], sources[j])` with `i < j`, in the order
the double loop of `detectArbitrage` visits them. -/
def sourcePairs : List PriceSource → List (PriceSource × PriceSource)
  | [] => []
  | s :: rest => rest.map (fun t => (s, t)) ++ sourcePairs rest

/-- The body of the inner loop of `detectArbitrage`: the opportunity pushed
for the pair `(si, sj)`, if its spread exceeds the 0.1% threshold. -/
def pairOpportunity (si sj : PriceSource) : Option ArbitrageOpportunity :=
  let priceDiff := |si.price - sj.price|
  let avgPrice := (si.price + sj.price) / 2
  let spreadPercentage := priceDiff / avgPrice * 100
  if spreadPercentage > 1 / 10 then
    some
      { buy_source := if si.price < sj.price then si.source else sj.source
        sell_source := if si.price < sj.price then sj.source else si.source
        spread_percentage := spreadPercentage
        profit_potential := priceDiff
        confidence := min si.confidence sj.confidence }
  else none

/-- `UnifiedPriceEngine.detectArbitrage`: collect an opportunity for every
pair above the threshold, then sort descending by `spread_percentage`
(the JavaScript `sort((a, b) => b.spread_percentage - a.spread_percentage)`). -/
def detectArbitrage (sources : List PriceSource) : List ArbitrageOpportunity :=
  ((sourcePairs sources).filterMap (fun p => pairOpportunity p.1 p.2)).mergeSort
    (fun a b => decide (b.spread_percentage ≤ a.spread_percentage))

/-- `UnifiedPriceEngine.calculateFreshness`: age of the most recent source,
rendered as a coarse human-readable string. -/
def calculateFreshness (now : ℚ) (sources : List PriceSource) : String :=
  match sources.map (fun s => s.timestamp) with
  | [] => "unknown"
  | t :: ts =>
    let mostRecentTimestamp := ts.foldl max t
    let ageSeconds : ℤ := ⌊(now - mostRecentTimestamp) / 1000⌋
    if ageSeconds < 60 then toString ageSeconds ++ "s"
    else if ageSeconds < 3600 then toString ⌊(ageSeconds : ℚ) / 60⌋ ++ "m"
    else toString ⌊(ageSeconds : ℚ) / 3600⌋ ++ "h"

/-- The `UnifiedPriceData` record assembled by `getUnifiedPrice`
(the `metadata` sub-object is flattened into the last three fields). -/
structure UnifiedData where
  symbol : String
  chain : String
  price : ℚ
  confidence : ℚ
  timestamp : ℚ
  sources : List String
  source_count : ℕ
  price_deviation : ℝ
  arbitrage_opportunities : List ArbitrageOpportunity
  last_updated : ℚ
  data_freshness : String

/-- A settled Chainlink adapter result (`PriceData`): `none` stands for a
rejected promise or a `null` value, either of which the engine skips. -/
structure ChainlinkResult where
  price : ℚ
  confidence : ℚ
  timestamp : ℚ
deriving DecidableEq

/-- A settled Pyth adapter result (`PythPriceData`). -/
structure PythResult where
  price : ℚ
  confidence : ℚ
  timestamp : ℚ
  publishTime : ℚ
deriving DecidableEq

/-- Errors `getUnifiedPrice` can surface: its own no-data error, or any
error rethrown from a collaborator (in particular the Redis cache). -/
inductive EngineError
  | noData (symbol chain : String)
  | other (msg : String)
deriving DecidableEq

/-- The environment of one `getUnifiedPrice` call: the outcome of the
cache probe, the outcome the cache write would have, the two settled
adapter promises, and the current time. -/
structure EngineEnv where
  cacheGet : Except String (Option UnifiedData)
  cacheSet : Except String Unit
  chainlink : Option ChainlinkResult
  pyth : Option PythResult
  now : ℚ

/-- The `sources` array built by `getUnifiedPrice` from the settled
adapter promises: a fulfilled non-null Chainlink result is pushed first,
then a fulfilled non-null Pyth result. -/
def engineSources (env : EngineEnv) : List PriceSource :=
  (match env.chainlink with
    | some d =>
      [{ source := "chainlink", price := d.price, confidence := d.confidence,
         timestamp := d.timestamp, latency := env.now - d.timestamp }]
    | none => []) ++
  (match env.pyth with
    | some d =>
      [{ source := "pyth", price := d.price, confidence := d.confidence,
         timestamp := d.timestamp, latency := env.now - d.publishTime }]
    | none => [])

/-- `UnifiedPriceEngine.getUnifiedPrice`.  The first component is the
returned data or the propagated error; the second records whether the
cache write completed.  Every `await` of a collaborator happens inside the
method's single `try` block, whose `catch` logs and rethrows, so a failed
cache operation propagates as an error. -/
noncomputable def getUnifiedPrice (env : EngineEnv) (symbol chain : String) :
    Except EngineError UnifiedData × Bool :=
  match env.cacheGet with
  | .error e => (.error (.other e), false)
  | .ok (some cached) => (.ok cached, false)
  | .ok none =>
    let sources := engineSources env
    match calculateWeightedAverage env.now sources with
    | none => (.error (.noData symbol chain), false)
    | some weightedPrice =>
      let unifiedData : UnifiedData :=
        { symbol := symbol, chain := chain,
          price := weightedPrice.1, confidence := weightedPrice.2,
          timestamp := env.now,
          sources := sources.map (fun s => s.source),
          source_count := sources.length,
          price_deviation := calculateDeviation sources,
          arbitrage_opportunities := detectArbitrage sources,
          last_updated := env.now,
          data_freshness := calculateFreshness env.now sources }
      match env.cacheSet with
      | .error e => (.error (.other e), false)
      | .ok _ => (.ok unifiedData, true)

/-! ### WebSocket subscription registry and broadcast fan-out

`WebSocketManager` keys its `subscriptions` map by the live `WebSocket`
object; connections are modelled by numeric identifiers, and each
connection's `Set<string>` of subscription keys by a duplicate-free list in
insertion order.  `isOpen c = true` models `ws.readyState === WebSocket.OPEN`. -/

/-- A subscription registry: each registered connection paired with its
set of `chain:symbol` subscription keys. -/
def Registry := List (ℕ × List String)

/-- `Set.add` on one client's subscription set:
append the key if it is not yet present. -/
def addKey (keys : List String) (key : String) : List String :=
  if key ∈ keys then keys else keys ++ [key]

/-- The registry after `handleSubscribe` records `key` for connection `c`
(a no-op for every other connection, and when `c` is not registered). -/
def subscribeKey (subs : Registry) (c : ℕ) (key : String) : Registry :=
  subs.map (fun e => if e.1 = c then (e.1, addKey e.2 key) else e)

/-- The registry after `handleUnsubscribe` deletes `key` for connection `c`. -/
def unsubscribeKey (subs : Registry) (c : ℕ) (key : String) : Registry :=
  subs.map (fun e => if e.1 = c then (e.1, e.2.erase key) else e)

/-- The connections `broadcastPriceUpdate` sends one `price_update` to:
those whose subscription set holds the key and whose socket is open
(`sendMessage` silently drops a non-open socket). -/
def broadcastRecipients (subs : Registry) (isOpen : ℕ → Bool) (key : String) :
    List ℕ :=
  (subs.filter (fun e => decide (key ∈ e.2) && isOpen e.1)).map (fun e => e.1)

/-- A message sent to one client over its socket. -/
inductive WsMsg
  | subConfirm (symbol chain key : String)
  | unsubConfirm (symbol chain key : String)
  | priceUpdate (d : UnifiedData)
  | errorMsg (text : String)

/-- `WebSocketManager.handleSubscribe` for connection `c`: validates the
payload, records the subscription, sends the confirmation, then fetches
the current unified price (`fetch` is the settled result of
`priceEngine.getUnifiedPrice`) and sends it as a `price_update`; a failed
fetch is only logged.  Returns the new registry and the messages passed to
`sendMessage` for `c`, in order. -/
noncomputable def handleSubscribe (subs : Registry) (c : ℕ)
    (payload : Option (String × String))
    (fetch : Except EngineError UnifiedData) : Registry × List WsMsg :=
  match payload with
  | none => (subs, [.errorMsg "Symbol and chain are required for subscription"])
  | some (symbol, chain) =>
    if symbol = "" ∨ chain = "" then
      (subs, [.errorMsg "Symbol and chain are required for subscription"])
    else
      let key := chain ++ ":" ++ symbol
      match subs.find? (fun e => e.1 = c) with
      | none => (subs, [])
      | some _ =>
        (subscribeKey subs c key,
          .subConfirm symbol chain key ::
            (match fetch with
              | .ok d => [.priceUpdate d]
              | .error _ => []))

/-- `WebSocketManager.handleUnsubscribe` for connection `c`. -/
def handleUnsubscribe (subs : Registry) (c : ℕ)
    (payload : Option (String × String)) : Registry × List WsMsg :=
  match payload with
  | none => (subs, [.errorMsg "Symbol and chain are required for unsubscription"])
  | some (symbol, chain) =>
    if symbol = "" ∨ chain = "" then
      (subs, [.errorMsg "Symbol and chain are required for unsubscription"])
    else
      let key := chain ++ ":" ++ symbol
      match subs.find? (fun e => e.1 = c) with
      | none => (subs, [])
      | some _ =>
        (unsubscribeKey subs c key, [.unsubConfirm symbol chain key])

/-! ### Specification-side definitions

The following definitions are written from the wording of the
specification (recency weight, normalized weighted mean, population
standard deviation, price range), to be compared with the source
translations above. -/

/-- Spec wording: `recencyWeight = max(0, 1 − age/window)`, `age = now −
observedAt`, `window` a 5 minute decay horizon. -/
def specRecencyWeight (now : ℚ) (s : PriceSource) : ℚ :=
  max 0 (1 - (now - s.timestamp) / (5 * 60 * 1000))

/-- Spec wording: each observation is weighted by
`confidence × recencyWeight`. -/
def specSourceWeight (now : ℚ) (s : PriceSource) : ℚ :=
  s.confidence * specRecencyWeight now s

/-- The sum of the per-observation weights. -/
def specWeightSum (now : ℚ) (l : List PriceSource) : ℚ :=
  (l.map (specSourceWeight now)).sum

/-- Unweighted arithmetic mean of the prices. -/
def specPriceMean (l : List PriceSource) : ℚ :=
  (l.map (fun s => s.price)).sum / l.length

/-- Unweighted arithmetic mean of the per-source confidences. -/
def specConfMean (l : List PriceSource) : ℚ :=
  (l.map (fun s => s.confidence)).sum / l.length

/-- Spec wording: the weighted mean of prices using normalized weights,
i.e. the weight-sum-normalized linear combination of the prices. -/
def specWeightedPrice (now : ℚ) (l : List PriceSource) : ℚ :=
  (l.map (fun s => s.price * specSourceWeight now s)).sum / specWeightSum now l

/-- Mean of the prices, in `ℝ`, for the deviation formula. -/
noncomputable def specRealMean (l : List PriceSource) : ℝ :=
  (l.map (fun s => (s.price : ℝ))).sum / l.length

/-- Population variance of the prices (division by `n`, not `n − 1`). -/
noncomputable def specPopVariance (l : List PriceSource) : ℝ :=
  (l.map (fun s => ((s.price : ℝ) - specRealMean l) ^ 2)).sum / l.length

/-- Population standard deviation of the prices. -/
noncomputable def specPopStdDev (l : List PriceSource) : ℝ :=
  Real.sqrt (specPopVariance l)

/-- Minimum of the prices of a non-empty observation list `s :: rest`. -/
def minPrice (s : PriceSource) (rest : List PriceSource) : ℚ :=
  (rest.map (fun t => t.price)).foldl min s.price

/-- Maximum of the prices of a non-empty observation list `s :: rest`. -/
def maxPrice (s : PriceSource) (rest : List PriceSource) : ℚ :=
  (rest.map (fun t => t.price)).foldl max s.price

/-! ### Helper lemmas -/

theorem foldl_add_eq {α M : Type _} [AddCommMonoid M] (f : α → M) :
    ∀ (l : List α) (init : M),
      l.foldl (fun acc x => acc + f x) init = init + (l.map f).sum := by
  intro l
  induction l with
  | nil => intro init; simp
  | cons x xs ih =>
    intro init
    simp only [List.foldl_cons, List.map_cons, List.sum_cons]
    rw [ih, add_assoc]

theorem map_sum_div {α : Type _} (f : α → ℚ) (c : ℚ) :
    ∀ l : List α, (l.map (fun x => f x / c)).sum = (l.map f).sum / c := by
  intro l
  induction l with
  | nil => simp
  | cons x xs ih => simp [ih, add_div]

theorem specSourceWeight_eq_code (now : ℚ) (s : PriceSource) :
    specSourceWeight now s = s.confidence * ageWeight now s := by
  unfold specSourceWeight specRecencyWeight ageWeight
  norm_num

/-- Closed form of `calculateWeightedAverage` on two or more observations,
shared by several theorems below. -/
theorem weightedAverage_spec_form (now : ℚ) (sources : List PriceSource)
    (h : 2 ≤ sources.length) :
    calculateWeightedAverage now sources =
      some (if specWeightSum now sources = 0 then specPriceMean sources
            else specWeightedPrice now sources,
            specConfMean sources) := by
  match sources with
  | [] => simp at h
  | [s] => simp at h
  | s :: t :: rest =>
    have hW :
        (s :: t :: rest).foldl
            (fun sum src => sum + src.confidence * ageWeight now src) 0 =
          specWeightSum now (s :: t :: rest) := by
      rw [foldl_add_eq, zero_add, specWeightSum]
      have hfun : specSourceWeight now = fun x => x.confidence * ageWeight now x :=
        funext (specSourceWeight_eq_code now)
      rw [hfun]
    have hP : (s :: t :: rest).foldl (fun sum t2 => sum + t2.price) 0 =
        ((s :: t :: rest).map (fun x => x.price)).sum := by
      rw [foldl_add_eq, zero_add]
    have hC : (s :: t :: rest).foldl (fun sum t2 => sum + t2.confidence) 0 =
        ((s :: t :: rest).map (fun x => x.confidence)).sum := by
      rw [foldl_add_eq, zero_add]
    simp only [calculateWeightedAverage, List.length_cons, Nat.succ_ne_zero,
      if_false, hW, hP, hC]
    by_cases h0 : specWeightSum now (s :: t :: rest) = 0
    · simp only [h0, if_true]
      norm_num [specPriceMean, specConfMean]
    · simp only [h0, if_false]
      have hWp :
          (s :: t :: rest).foldl
              (fun sum src =>
                sum + src.price *
                  (src.confidence * ageWeight now src /
                    specWeightSum now (s :: t :: rest))) 0 =
            specWeightedPrice now (s :: t :: rest) := by
        rw [foldl_add_eq, zero_add, specWeightedPrice]
        rw [← map_sum_div (fun x => x.price * specSourceWeight now x)]
        congr 1
        apply List.map_congr_left
        intro x _
        rw [specSourceWeight_eq_code]
        ring
      rw [hWp]
      norm_num [specConfMean]

/-- Claim C1. For every list of two or more observations,
`calculateWeightedAverage` returns: the mean of the prices weighted by
`confidence × max(0, 1 − age/window)` with a 5 minute window and the
weights normalized by their sum; the unweighted arithmetic mean of the
prices when that weight sum is `0`; and, in both cases, the unweighted
arithmetic mean of the confidences as the consensus confidence. -/
theorem C1_weighted_consensus (now : ℚ) (sources : List PriceSource)
    (h : 2 ≤ sources.length) :
    calculateWeightedAverage now sources =
      some (if specWeightSum now sources = 0 then specPriceMean sources
            else specWeightedPrice now sources,
            specConfMean sources) :=
  weightedAverage_spec_form now sources h

/-- Witness for C1 at a concrete two-observation input. -/
theorem C1_weighted_consensus_witness :
    calculateWeightedAverage 1000
        [{ source := "chainlink", price := 100, confidence := 9/10,
           timestamp := 1000, latency := 0 },
         { source := "pyth", price := 102, confidence := 9/10,
           timestamp := 1000, latency := 0 }] =
      some (if specWeightSum 1000
              [{ source := "chainlink", price := 100, confidence := 9/10,
                 timestamp := 1000, latency := 0 },
               { source := "pyth", price := 102, confidence := 9/10,
                 timestamp := 1000, latency := 0 }] = 0 then
              specPriceMean
                [{ source := "chainlink", price := 100, confidence := 9/10,
                   timestamp := 1000, latency := 0 },
                 { source := "pyth", price := 102, confidence := 9/10,
                   timestamp := 1000, latency := 0 }]
            else
              specWeightedPrice 1000
                [{ source := "chainlink", price := 100, confidence := 9/10,
                   timestamp := 1000, latency := 0 },
                 { source := "pyth", price := 102, confidence := 9/10,
                   timestamp := 1000, latency := 0 }],
            specConfMean
              [{ source := "chainlink", price := 100, confidence := 9/10,
                 timestamp := 1000, latency := 0 },
               { source := "pyth", price := 102, confidence := 9/10,
                 timestamp := 1000, latency := 0 }]) :=
  C1_weighted_consensus 1000 _ (by decide)

/-- Claim C2. A single-observation list passes through unchanged: the
consensus price and confidence are exactly the observation's, and the
deviation of a one-element list is `0`. -/
theorem C2_single_observation (now : ℚ) (s : PriceSource) :
    calculateWeightedAverage now [s] = some (s.price, s.confidence) ∧
      calculateDeviation [s] = 0 := by
  constructor
  · rfl
  · simp [calculateDeviation]

/-- Claim C4. `calculateDeviation` is the population standard deviation of
the prices divided by their arithmetic mean, times 100, and is `0` for
fewer than two observations. -/
theorem C4_deviation_formula (sources : List PriceSource) :
    calculateDeviation sources =
      if sources.length ≤ 1 then 0
      else specPopStdDev sources / specRealMean sources * 100 := by
  by_cases h : sources.length ≤ 1
  · simp [calculateDeviation, h]
  · simp only [calculateDeviation, h, if_false]
    have h1 :
        (sources.map fun s => (s.price : ℝ)).foldl (fun sum p => sum + p) 0 /
            (((sources.map fun s => (s.price : ℝ)).length : ℕ) : ℝ) =
          specRealMean sources := by
      rw [foldl_add_eq, zero_add]
      simp [specRealMean, Function.comp_def]
    rw [h1]
    have h2 :
        (sources.map fun s => (s.price : ℝ)).foldl
            (fun sum p => sum + (p - specRealMean sources) ^ 2) 0 =
          (sources.map fun s => ((s.price : ℝ) - specRealMean sources) ^ 2).sum := by
      rw [foldl_add_eq, zero_add, List.map_map]
      simp [Function.comp_def]
    rw [h2]
    simp [specPopStdDev, specPopVariance]

/-- Shared evaluation: the deviation of the spec's `{100, 102}` example is
exactly `100 / 101` (mean `101`, population stddev `1`). -/
theorem deviation_100_102 :
    calculateDeviation
        [{ source := "chainlink", price := 100, confidence := 9/10,
           timestamp := 0, latency := 0 },
         { source := "pyth", price := 102, confidence := 9/10,
           timestamp := 0, latency := 0 }] = 100 / 101 := by
  have h2 :
      calculateDeviation
          [{ source := "chainlink", price := 100, confidence := 9/10,
             timestamp := 0, latency := 0 },
           { source := "pyth", price := 102, confidence := 9/10,
             timestamp := 0, latency := 0 }] = Real.sqrt 1 / 101 * 100 := by
    simp only [calculateDeviation, List.length_cons, List.length_nil,
      List.map_cons, List.map_nil, List.foldl_cons, List.foldl_nil]
    norm_num
  rw [h2, Real.sqrt_one]
  norm_num

/-- Claim C5, counterexample. For the two-observation input with prices
`{100, 102}`, equal confidence and timestamp, the computed deviation is
`100 / 101 ≈ 0.99`, not approximately `1.98`: it differs from `1.98` by
more than `0.9`. -/
theorem C5_counterexample :
    calculateDeviation
        [{ source := "chainlink", price := 100, confidence := 9/10,
           timestamp := 0, latency := 0 },
         { source := "pyth", price := 102, confidence := 9/10,
           timestamp := 0, latency := 0 }] = 100 / 101 ∧
      ¬ |calculateDeviation
            [{ source := "chainlink", price := 100, confidence := 9/10,
               timestamp := 0, latency := 0 },
             { source := "pyth", price := 102, confidence := 9/10,
               timestamp := 0, latency := 0 }] - 198 / 100| < 9 / 10 := by
  refine ⟨deviation_100_102, ?_⟩
  rw [deviation_100_102]
  rw [abs_of_nonpos (by norm_num)]
  norm_num

/-- Claim C5, amended. For the two-observation input with prices `{100, 102}`
and equal confidence and timestamp, the computed deviation percentage is
exactly `100 / 101`, approximately `0.99` (population stddev `1`, mean
`101`). -/
theorem C5_amended :
    calculateDeviation
        [{ source := "chainlink", price := 100, confidence := 9/10,
           timestamp := 0, latency := 0 },
         { source := "pyth", price := 102, confidence := 9/10,
           timestamp := 0, latency := 0 }] = 100 / 101 ∧
      |calculateDeviation
          [{ source := "chainlink", price := 100, confidence := 9/10,
             timestamp := 0, latency := 0 },
           { source := "pyth", price := 102, confidence := 9/10,
             timestamp := 0, latency := 0 }] - 99 / 100| < 1 / 100 := by
  refine ⟨deviation_100_102, ?_⟩
  rw [deviation_100_102]
  rw [abs_of_nonneg (by norm_num)]
  norm_num

theorem foldl_min_le : ∀ (l : List ℚ) (a : ℚ),
    l.foldl min a ≤ a ∧ ∀ x ∈ l, l.foldl min a ≤ x := by
  intro l
  induction l with
  | nil => intro a; exact ⟨le_refl a, by simp⟩
  | cons b t ih =>
    intro a
    refine ⟨le_trans (ih (min a b)).1 (min_le_left a b), ?_⟩
    intro x hx
    rcases List.mem_cons.mp hx with h | h
    · subst h; exact le_trans (ih (min a x)).1 (min_le_right a x)
    · exact (ih (min a b)).2 x h

theorem le_foldl_max : ∀ (l : List ℚ) (a : ℚ),
    a ≤ l.foldl max a ∧ ∀ x ∈ l, x ≤ l.foldl max a := by
  intro l
  induction l with
  | nil => intro a; exact ⟨le_refl a, by simp⟩
  | cons b t ih =>
    intro a
    refine ⟨le_trans (le_max_left a b) (ih (max a b)).1, ?_⟩
    intro x hx
    rcases List.mem_cons.mp hx with h | h
    · subst h; exact le_trans (le_max_right a x) (ih (max a x)).1
    · exact (ih (max a b)).2 x h

theorem weighted_sum_le (w f : PriceSource → ℚ) (B : ℚ) :
    ∀ l : List PriceSource, (∀ s ∈ l, 0 ≤ w s) → (∀ s ∈ l, f s ≤ B) →
      (l.map (fun s => f s * w s)).sum ≤ B * (l.map w).sum := by
  intro l
  induction l with
  | nil => simp
  | cons s t ih =>
    intro hw hf
    simp only [List.map_cons, List.sum_cons, mul_add]
    exact add_le_add
      (mul_le_mul_of_nonneg_right (hf s (by simp)) (hw s (by simp)))
      (ih (fun x hx => hw x (by simp [hx])) (fun x hx => hf x (by simp [hx])))

theorem le_weighted_sum (w f : PriceSource → ℚ) (A : ℚ) :
    ∀ l : List PriceSource, (∀ s ∈ l, 0 ≤ w s) → (∀ s ∈ l, A ≤ f s) →
      A * (l.map w).sum ≤ (l.map (fun s => f s * w s)).sum := by
  intro l
  induction l with
  | nil => simp
  | cons s t ih =>
    intro hw hf
    simp only [List.map_cons, List.sum_cons, mul_add]
    exact add_le_add
      (mul_le_mul_of_nonneg_right (hf s (by simp)) (hw s (by simp)))
      (ih (fun x hx => hw x (by simp [hx])) (fun x hx => hf x (by simp [hx])))

theorem sum_map_one (l : List PriceSource) :
    (l.map (fun _ => (1 : ℚ))).sum = (l.length : ℚ) := by
  induction l with
  | nil => simp
  | cons s t ih => simp [ih]; ring

theorem specWeightSum_nonneg (now : ℚ) (l : List PriceSource)
    (hconf : ∀ t ∈ l, 0 ≤ t.confidence) : 0 ≤ specWeightSum now l := by
  apply List.sum_nonneg
  intro x hx
  rcases List.mem_map.mp hx with ⟨t, ht, rfl⟩
  exact mul_nonneg (hconf t ht) (le_max_left 0 _)

/-- Claim C3. For every non-empty list of observations with positive prices
(and confidences in the valid `[0, 1]` range of the data model), the
consensus price returned by `calculateWeightedAverage` lies within the
closed interval from the minimum to the maximum of the input prices, in
the normalized-weight case as well as in the zero-total-weight fallback. -/
theorem C3_price_within_range (now : ℚ) (s : PriceSource)
    (rest : List PriceSource)
    (hpos : ∀ t ∈ s :: rest, 0 < t.price)
    (hconf : ∀ t ∈ s :: rest, 0 ≤ t.confidence) :
    ∃ pc, calculateWeightedAverage now (s :: rest) = some pc ∧
      minPrice s rest ≤ pc.1 ∧ pc.1 ≤ maxPrice s rest := by
  have hminmax : ∀ t ∈ s :: rest, minPrice s rest ≤ t.price ∧
      t.price ≤ maxPrice s rest := by
    intro t ht
    rcases List.mem_cons.mp ht with h | h
    · subst h
      exact ⟨(foldl_min_le _ _).1, (le_foldl_max _ _).1⟩
    · refine ⟨(foldl_min_le _ _).2 t.price ?_, (le_foldl_max _ _).2 t.price ?_⟩
      · exact List.mem_map.mpr ⟨t, h, rfl⟩
      · exact List.mem_map.mpr ⟨t, h, rfl⟩
  match rest with
  | [] =>
    refine ⟨(s.price, s.confidence), rfl, ?_, ?_⟩
    · simp [minPrice]
    · simp [maxPrice]
  | t :: rs =>
    have hlen : 2 ≤ (s :: t :: rs).length := by simp
    have hform := weightedAverage_spec_form now (s :: t :: rs) hlen
    have hcount : (0 : ℚ) < ((s :: t :: rs).length : ℚ) := by
      positivity
    have hwnn : ∀ x ∈ s :: t :: rs, 0 ≤ specSourceWeight now x := by
      intro x hx
      exact mul_nonneg (hconf x hx) (le_max_left 0 _)
    by_cases h0 : specWeightSum now (s :: t :: rs) = 0
    · rw [h0] at hform
      simp only [if_true] at hform
      refine ⟨_, hform, ?_, ?_⟩
      · show minPrice s (t :: rs) ≤ specPriceMean (s :: t :: rs)
        rw [specPriceMean, le_div_iff₀ hcount]
        have := le_weighted_sum (fun _ => 1) (fun x => x.price)
          (minPrice s (t :: rs)) (s :: t :: rs)
          (by intro x _; norm_num) (fun x hx => (hminmax x hx).1)
        rw [sum_map_one] at this
        simpa using this
      · show specPriceMean (s :: t :: rs) ≤ maxPrice s (t :: rs)
        rw [specPriceMean, div_le_iff₀ hcount]
        have := weighted_sum_le (fun _ => 1) (fun x => x.price)
          (maxPrice s (t :: rs)) (s :: t :: rs)
          (by intro x _; norm_num) (fun x hx => (hminmax x hx).2)
        rw [sum_map_one] at this
        simpa [mul_comm] using this
    · have hWpos : 0 < specWeightSum now (s :: t :: rs) :=
        lt_of_le_of_ne (specWeightSum_nonneg now _ hconf) (Ne.symm h0)
      simp only [if_neg h0] at hform
      refine ⟨_, hform, ?_, ?_⟩
      · show minPrice s (t :: rs) ≤ specWeightedPrice now (s :: t :: rs)
        rw [specWeightedPrice, le_div_iff₀ hWpos]
        exact le_weighted_sum (specSourceWeight now) (fun x => x.price)
          (minPrice s (t :: rs)) (s :: t :: rs) hwnn
          (fun x hx => (hminmax x hx).1)
      · show specWeightedPrice now (s :: t :: rs) ≤ maxPrice s (t :: rs)
        rw [specWeightedPrice, div_le_iff₀ hWpos]
        exact weighted_sum_le (specSourceWeight now) (fun x => x.price)
          (maxPrice s (t :: rs)) (s :: t :: rs) hwnn
          (fun x hx => (hminmax x hx).2)

/-- Witness for C3 at a concrete two-observation input. -/
theorem C3_price_within_range_witness :
    ∃ pc,
      calculateWeightedAverage 0
          [{ source := "chainlink", price := 100, confidence := 1,
             timestamp := 0, latency := 0 },
           { source := "pyth", price := 102, confidence := 1,
             timestamp := 0, latency := 0 }] = some pc ∧
        minPrice
            { source := "chainlink", price := 100, confidence := 1,
              timestamp := 0, latency := 0 }
            [{ source := "pyth", price := 102, confidence := 1,
               timestamp := 0, latency := 0 }] ≤ pc.1 ∧
        pc.1 ≤ maxPrice
            { source := "chainlink", price := 100, confidence := 1,
              timestamp := 0, latency := 0 }
            [{ source := "pyth", price := 102, confidence := 1,
               timestamp := 0, latency := 0 }] :=
  C3_price_within_range 0 _ _ (by decide) (by decide)

theorem mem_sourcePairs (l : List PriceSource) (p : PriceSource × PriceSource) :
    p ∈ sourcePairs l ↔
      ∃ i j : ℕ, i < j ∧ l.get? i = some p.1 ∧ l.get? j = some p.2 := by
  induction l with
  | nil => simp [sourcePairs]
  | cons s rest ih =>
    simp only [sourcePairs, List.mem_append, List.mem_map, ih]
    constructor
    · rintro (⟨t, ht, rfl⟩ | ⟨i, j, hij, h1, h2⟩)
      · obtain ⟨k, hk⟩ := List.mem_iff_get?.mp ht
        exact ⟨0, k + 1, Nat.succ_pos k, by simp, by simpa using hk⟩
      · exact ⟨i + 1, j + 1, by omega, by simpa using h1, by simpa using h2⟩
    · rintro ⟨i, j, hij, h1, h2⟩
      match i, j with
      | 0, 0 => omega
      | 0, j + 1 =>
        left
        refine ⟨p.2, List.get?_mem (by simpa using h2), ?_⟩
        have hs : p.1 = s := by simpa using h1.symm
        rw [← hs]
      | i + 1, 0 => omega
      | i + 1, j + 1 =>
        right
        exact ⟨i, j, by omega, by simpa using h1, by simpa using h2⟩

/-- Claim C6. `detectArbitrage` considers every (unordered) index pair of the
source list; an opportunity is emitted exactly when the pair's spread
percentage `|pᵢ − pⱼ| / avg(pᵢ, pⱼ) × 100` strictly exceeds the `0.1`
threshold, carrying the lower-priced source as `buy_source`, the
higher-priced one as `sell_source`, the absolute price difference as
`profit_potential` and the minimum of the two confidences; the returned
list is the collection of these opportunities sorted descending by
`spread_percentage`. -/
theorem C6_detect_arbitrage (l : List PriceSource) :
    (∀ o, o ∈ detectArbitrage l ↔
        ∃ i j : ℕ, i < j ∧ ∃ si sj,
          l.get? i = some si ∧ l.get? j = some sj ∧
            pairOpportunity si sj = some o)
    ∧ (detectArbitrage l).Perm
        ((sourcePairs l).filterMap fun p => pairOpportunity p.1 p.2)
    ∧ List.Sorted
        (fun a b : ArbitrageOpportunity =>
          b.spread_percentage ≤ a.spread_percentage)
        (detectArbitrage l)
    ∧ (∀ si sj : PriceSource, (pairOpportunity si sj).isSome ↔
        1 / 10 < |si.price - sj.price| / ((si.price + sj.price) / 2) * 100)
    ∧ ∀ si sj o, pairOpportunity si sj = some o →
        o.spread_percentage =
            |si.price - sj.price| / ((si.price + sj.price) / 2) * 100 ∧
          1 / 10 < o.spread_percentage ∧
          o.profit_potential = |si.price - sj.price| ∧
          o.confidence = min si.confidence sj.confidence ∧
          (si.price < sj.price →
            o.buy_source = si.source ∧ o.sell_source = sj.source) ∧
          (sj.price < si.price →
            o.buy_source = sj.source ∧ o.sell_source = si.source) := by
  have hperm : (detectArbitrage l).Perm
      ((sourcePairs l).filterMap fun p => pairOpportunity p.1 p.2) :=
    List.mergeSort_perm _ _
  refine ⟨?_, hperm, ?_, ?_, ?_⟩
  · intro o
    rw [hperm.mem_iff, List.mem_filterMap]
    constructor
    · rintro ⟨p, hp, hpo⟩
      obtain ⟨i, j, hij, h1, h2⟩ := (mem_sourcePairs l p).mp hp
      exact ⟨i, j, hij, p.1, p.2, h1, h2, hpo⟩
    · rintro ⟨i, j, hij, si, sj, h1, h2, ho⟩
      exact ⟨(si, sj), (mem_sourcePairs l (si, sj)).mpr ⟨i, j, hij, h1, h2⟩, ho⟩
  · have := @List.sorted_mergeSort ArbitrageOpportunity
      (fun a b : ArbitrageOpportunity =>
        decide (b.spread_percentage ≤ a.spread_percentage))
      (fun a b c hab hbc => by
        simp only [decide_eq_true_eq] at *
        exact le_trans hbc hab)
      (fun a b => by
        simp only [Bool.or_eq_true, decide_eq_true_eq]
        exact le_total b.spread_percentage a.spread_percentage)
      ((sourcePairs l).filterMap fun p => pairOpportunity p.1 p.2)
    refine List.Pairwise.imp ?_ this
    intro a b h
    simpa using h
  · intro si sj
    unfold pairOpportunity
    by_cases h : |si.price - sj.price| / ((si.price + sj.price) / 2) * 100 > 1 / 10
    · simp [h]
    · simp [h]
  · intro si sj o ho
    unfold pairOpportunity at ho
    by_cases h : |si.price - sj.price| / ((si.price + sj.price) / 2) * 100 > 1 / 10
    · rw [if_pos h] at ho
      cases ho
      refine ⟨rfl, h, rfl, rfl, ?_, ?_⟩
      · intro hlt
        rw [if_pos hlt, if_pos hlt]
        exact ⟨rfl, rfl⟩
      · intro hlt
        have hnlt : ¬ si.price < sj.price := not_lt_of_lt hlt
        rw [if_neg hnlt, if_neg hnlt]
        exact ⟨rfl, rfl⟩
    · rw [if_neg h] at ho
      cases ho

/-- Witness for C6 at the spec's concrete `{100 (conf .90), 101.5 (conf
.95)}` example pair. -/
theorem C6_detect_arbitrage_witness :
    (pairOpportunity
        { source := "chainlink", price := 100, confidence := 9/10,
          timestamp := 0, latency := 0 }
        { source := "pyth", price := 203/2, confidence := 19/20,
          timestamp := 0, latency := 0 }).isSome ↔
      1 / 10 < |(100 : ℚ) - 203/2| / ((100 + 203/2) / 2) * 100 :=
  (C6_detect_arbitrage
      [{ source := "chainlink", price := 100, confidence := 9/10,
         timestamp := 0, latency := 0 },
       { source := "pyth", price := 203/2, confidence := 19/20,
         timestamp := 0, latency := 0 }]).2.2.2.1
    { source := "chainlink", price := 100, confidence := 9/10,
      timestamp := 0, latency := 0 }
    { source := "pyth", price := 203/2, confidence := 19/20,
      timestamp := 0, latency := 0 }

theorem calculateWeightedAverage_isSome (now : ℚ) (s : PriceSource)
    (rest : List PriceSource) :
    ∃ pc, calculateWeightedAverage now (s :: rest) = some pc := by
  match rest with
  | [] => exact ⟨_, rfl⟩
  | t :: rs =>
    simp only [calculateWeightedAverage, List.length_cons, Nat.succ_ne_zero,
      if_false]
    split
    · exact ⟨_, rfl⟩
    · exact ⟨_, rfl⟩

/-- Claim C7. Under a healthy cache (probe reports a miss, write succeeds),
`getUnifiedPrice` fails with its no-data error exactly when neither
adapter produced a usable observation; in that case nothing is written to
the cache; and as soon as at least one adapter succeeds, a consensus
result computed from exactly the successful observations is returned and
cached — a failing adapter never fails the request. -/
theorem C7_no_data_policy (env : EngineEnv) (symbol chain : String)
    (hget : env.cacheGet = .ok none) (hset : env.cacheSet = .ok ()) :
    ((getUnifiedPrice env symbol chain).1 =
        .error (.noData symbol chain) ↔
      env.chainlink = none ∧ env.pyth = none)
    ∧ ((env.chainlink = none ∧ env.pyth = none) →
        getUnifiedPrice env symbol chain =
          (.error (.noData symbol chain), false))
    ∧ ((env.chainlink ≠ none ∨ env.pyth ≠ none) →
        ∃ pc, calculateWeightedAverage env.now (engineSources env) = some pc ∧
          getUnifiedPrice env symbol chain =
            (.ok
              { symbol := symbol, chain := chain,
                price := pc.1, confidence := pc.2,
                timestamp := env.now,
                sources := (engineSources env).map (fun s => s.source),
                source_count := (engineSources env).length,
                price_deviation := calculateDeviation (engineSources env),
                arbitrage_opportunities := detectArbitrage (engineSources env),
                last_updated := env.now,
                data_freshness := calculateFreshness env.now (engineSources env) },
              true)) := by
  obtain ⟨cg, cs, cl, py, now⟩ := env
  simp only at hget hset
  subst hget
  subst hset
  match cl, py with
  | none, none =>
    refine ⟨by simp [getUnifiedPrice, engineSources, calculateWeightedAverage], ?_, ?_⟩
    · intro _
      rfl
    · rintro (h | h) <;> simp at h
  | some c, none =>
    refine ⟨?_, ?_, ?_⟩
    · simp [getUnifiedPrice, engineSources, calculateWeightedAverage]
    · rintro ⟨h, -⟩
      simp at h
    · intro _
      exact ⟨_, rfl, rfl⟩
  | none, some p =>
    refine ⟨?_, ?_, ?_⟩
    · simp [getUnifiedPrice, engineSources, calculateWeightedAverage]
    · rintro ⟨-, h⟩
      simp at h
    · intro _
      exact ⟨_, rfl, rfl⟩
  | some c, some p =>
    obtain ⟨pc, hpc⟩ :=
      calculateWeightedAverage_isSome now
        { source := "chainlink", price := c.price, confidence := c.confidence,
          timestamp := c.timestamp, latency := now - c.timestamp }
        [{ source := "pyth", price := p.price, confidence := p.confidence,
           timestamp := p.timestamp, latency := now - p.publishTime }]
    refine ⟨?_, ?_, ?_⟩
    · simp [getUnifiedPrice, engineSources, hpc]
    · rintro ⟨h, -⟩
      simp at h
    · intro _
      refine ⟨pc, hpc, ?_⟩
      show getUnifiedPrice ⟨.ok none, .ok (), some c, some p, now⟩
          symbol chain = _
      simp only [getUnifiedPrice, engineSources, List.singleton_append]
      rw [hpc]

/-- Witness for C7: with a cache miss and one live adapter, the request
does not fail with the no-data error. -/
theorem C7_no_data_policy_witness :
    (getUnifiedPrice
        { cacheGet := .ok none, cacheSet := .ok (),
          chainlink := some { price := 100, confidence := 9/10, timestamp := 0 },
          pyth := none, now := 0 } "ETH" "eth").1 =
        .error (.noData "ETH" "eth") ↔
      ({ cacheGet := .ok none, cacheSet := .ok (),
         chainlink := some { price := 100, confidence := 9/10, timestamp := 0 },
         pyth := none, now := 0 } : EngineEnv).chainlink = none ∧
      ({ cacheGet := .ok none, cacheSet := .ok (),
         chainlink := some { price := 100, confidence := 9/10, timestamp := 0 },
         pyth := none, now := 0 } : EngineEnv).pyth = none :=
  (C7_no_data_policy _ "ETH" "eth" rfl rfl).1

/-- Claim C8, counterexample. A failing cache probe is not treated as a miss:
with both adapters healthy and the cache probe failing, `getUnifiedPrice`
returns the propagated cache error instead of a computed consensus
result — the cache error fails the request. -/
theorem C8_counterexample :
    getUnifiedPrice
        { cacheGet := .error "redis unavailable", cacheSet := .ok (),
          chainlink := some { price := 100, confidence := 9/10, timestamp := 0 },
          pyth := some { price := 101, confidence := 9/10, timestamp := 0,
                         publishTime := 0 },
          now := 0 } "ETH" "eth" =
      (.error (.other "redis unavailable"), false) := rfl

/-- Claim C8, amended. A failure of a cache operation is not caught by
`getUnifiedPrice`: a failing cache probe, or a failing cache write after a
successful fetch, propagates out of the method and fails the request
(and nothing is cached), rather than being treated as a cache miss. -/
theorem C8_amended_cache_errors_propagate (env : EngineEnv)
    (symbol chain e : String)
    (h : env.cacheGet = .error e ∨
      (env.cacheGet = .ok none ∧ env.cacheSet = .error e ∧
        engineSources env ≠ [])) :
    getUnifiedPrice env symbol chain = (.error (.other e), false) := by
  obtain ⟨cg, cs, cl, py, now⟩ := env
  rcases h with h | ⟨h1, h2, h3⟩
  · simp only at h
    subst h
    rfl
  · simp only at h1 h2
    subst h1
    subst h2
    obtain ⟨s, rest, hsr⟩ := List.exists_cons_of_ne_nil h3
    obtain ⟨pc, hpc⟩ := calculateWeightedAverage_isSome now s rest
    simp only [getUnifiedPrice]
    rw [hsr, hpc]

/-- Witness for the amended C8 at a concrete failing cache probe. -/
theorem C8_amended_witness :
    getUnifiedPrice
        { cacheGet := .error "boom", cacheSet := .ok (),
          chainlink := none, pyth := none, now := 0 } "ETH" "eth" =
      (.error (.other "boom"), false) :=
  C8_amended_cache_errors_propagate _ "ETH" "eth" "boom" (Or.inl rfl)

/-- Claim C9. After connection `a` subscribes to key `kA` and connection `b`
to a different key `kB` (both freshly connected), a broadcast for `kA`
delivers exactly one message to `a` and none to `b`; after `a`
unsubscribes from `kA`, a broadcast for `kA` delivers nothing to `a`; a
broadcast never attempts delivery to a connection whose socket is not
open; and closing one connection's socket does not affect delivery to any
other connection. -/
theorem C9_broadcast_fanout (a b : ℕ) (kA kB : String) (isOpen : ℕ → Bool)
    (hab : a ≠ b) (hk : kA ≠ kB) (hopen : isOpen a = true) :
    ((broadcastRecipients
        (subscribeKey (subscribeKey [(a, []), (b, [])] a kA) b kB)
        isOpen kA).count a = 1
    ∧ (broadcastRecipients
        (subscribeKey (subscribeKey [(a, []), (b, [])] a kA) b kB)
        isOpen kA).count b = 0
    ∧ (broadcastRecipients
        (unsubscribeKey
          (subscribeKey (subscribeKey [(a, []), (b, [])] a kA) b kB) a kA)
        isOpen kA).count a = 0)
    ∧ (∀ (subs : Registry) (key : String) (c : ℕ),
        c ∈ broadcastRecipients subs isOpen key → isOpen c = true)
    ∧ (∀ (subs : Registry) (key : String) (c d : ℕ), c ≠ d →
        (c ∈ broadcastRecipients subs
            (fun x => if x = d then false else isOpen x) key ↔
          c ∈ broadcastRecipients subs isOpen key)) := by
  refine ⟨?_, ?_, ?_⟩
  · have hba : ¬ b = a := fun hba => hab hba.symm
    have hkk : ¬ kA ∈ [kB] := by
      simp only [List.mem_singleton]
      exact hk
    simp [subscribeKey, unsubscribeKey, addKey, broadcastRecipients,
      hab, hba, hk, hkk, hopen, List.count_cons]
  · intro subs key c hc
    obtain ⟨e, hef, heq⟩ := List.mem_map.mp hc
    obtain ⟨-, hpred⟩ := List.mem_filter.mp hef
    rw [Bool.and_eq_true] at hpred
    rw [← heq]
    exact hpred.2
  · intro subs key c d hcd
    simp only [broadcastRecipients, List.mem_map, List.mem_filter,
      Bool.and_eq_true]
    constructor
    · rintro ⟨e, ⟨he, hkey, hob⟩, heq⟩
      rw [← heq] at hcd
      rw [if_neg hcd] at hob
      exact ⟨e, ⟨he, hkey, hob⟩, heq⟩
    · rintro ⟨e, ⟨he, hkey, hob⟩, heq⟩
      rw [← heq] at hcd
      refine ⟨e, ⟨he, hkey, ?_⟩, heq⟩
      rw [if_neg hcd]
      exact hob

/-- Witness for C9 at two concrete connections and subscription keys. -/
theorem C9_broadcast_fanout_witness :
    ((broadcastRecipients
        (subscribeKey (subscribeKey [(0, []), (1, [])] 0 "eth:ETH") 1
          "polygon:MATIC")
        (fun _ => true) "eth:ETH").count 0 = 1
    ∧ (broadcastRecipients
        (subscribeKey (subscribeKey [(0, []), (1, [])] 0 "eth:ETH") 1
          "polygon:MATIC")
        (fun _ => true) "eth:ETH").count 1 = 0
    ∧ (broadcastRecipients
        (unsubscribeKey
          (subscribeKey (subscribeKey [(0, []), (1, [])] 0 "eth:ETH") 1
            "polygon:MATIC") 0 "eth:ETH")
        (fun _ => true) "eth:ETH").count 0 = 0)
    ∧ (∀ (subs : Registry) (key : String) (c : ℕ),
        c ∈ broadcastRecipients subs (fun _ => true) key →
          (fun _ : ℕ => true) c = true)
    ∧ (∀ (subs : Registry) (key : String) (c d : ℕ), c ≠ d →
        (c ∈ broadcastRecipients subs
            (fun x => if x = d then false else (fun _ : ℕ => true) x) key ↔
          c ∈ broadcastRecipients subs (fun _ => true) key)) :=
  C9_broadcast_fanout 0 1 "eth:ETH" "polygon:MATIC" (fun _ => true)
    (by decide) (by decide) rfl

theorem find?_subscribeKey (c : ℕ) (key : String) :
    ∀ (subs : Registry) (e : ℕ × List String),
      subs.find? (fun x => x.1 = c) = some e →
        (subscribeKey subs c key).find? (fun x => x.1 = c) =
          some (c, addKey e.2 key) := by
  intro subs
  induction subs with
  | nil =>
    intro e h
    simp at h
  | cons hd tl ih =>
    intro e h
    by_cases hc : hd.1 = c
    · rw [List.find?_cons_of_pos _ (by simp [hc])] at h
      injection h with h
      subst h
      show List.find? _ (_ :: _) = _
      simp only [if_pos hc]
      rw [List.find?_cons_of_pos _ (by simp [hc])]
      simp [hc]
    · rw [List.find?_cons_of_neg _ (by simp [hc])] at h
      show List.find? _ (_ :: _) = _
      simp only [if_neg hc]
      rw [List.find?_cons_of_neg _ (by simp [hc])]
      exact ih e h

/-- Claim C10. For a well-formed subscribe request from a registered
connection, `handleSubscribe` records the subscription and sends, in
order, the subscription confirmation followed by a `price_update` carrying
the freshly fetched unified price; when that initial fetch fails, no
`price_update` is sent (the error is only logged) and the subscription
remains registered either way. -/
theorem C10_initial_price_push (subs : Registry) (c : ℕ)
    (symbol chain : String) (fetch : Except EngineError UnifiedData)
    (hs : symbol ≠ "") (hc : chain ≠ "")
    (hreg : (subs.find? (fun e => e.1 = c)).isSome) :
    handleSubscribe subs c (some (symbol, chain)) fetch =
      (subscribeKey subs c (chain ++ ":" ++ symbol),
        .subConfirm symbol chain (chain ++ ":" ++ symbol) ::
          (match fetch with
            | .ok d => [.priceUpdate d]
            | .error _ => [])) ∧
      ∃ keys,
        (subscribeKey subs c (chain ++ ":" ++ symbol)).find?
            (fun e => e.1 = c) = some (c, keys) ∧
          (chain ++ ":" ++ symbol) ∈ keys := by
  obtain ⟨e, he⟩ := Option.isSome_iff_exists.mp hreg
  constructor
  · simp only [handleSubscribe]
    rw [if_neg (by simp [hs, hc]), he]
  · refine ⟨addKey e.2 (chain ++ ":" ++ symbol),
      find?_subscribeKey c _ subs e he, ?_⟩
    by_cases hmem : (chain ++ ":" ++ symbol) ∈ e.2
    · simp [addKey, hmem]
    · simp [addKey, hmem]

/-- Witness for C10: a registered connection subscribing to `(eth, ETH)`
whose initial price fetch fails still gets the confirmation and stays
subscribed. -/
theorem C10_initial_price_push_witness :
    handleSubscribe [(0, ([] : List String))] 0 (some ("ETH", "eth"))
        (.error (.noData "ETH" "eth")) =
      (subscribeKey [(0, ([] : List String))] 0 ("eth" ++ ":" ++ "ETH"),
        .subConfirm "ETH" "eth" ("eth" ++ ":" ++ "ETH") ::
          (match (.error (.noData "ETH" "eth") :
              Except EngineError UnifiedData) with
            | .ok d => [.priceUpdate d]
            | .error _ => [])) ∧
      ∃ keys,
        (subscribeKey [(0, ([] : List String))] 0
            ("eth" ++ ":" ++ "ETH")).find? (fun e => e.1 = 0) =
          some (0, keys) ∧
          ("eth" ++ ":" ++ "ETH") ∈ keys :=
  C10_initial_price_push [(0, [])] 0 "ETH" "eth"
    (.error (.noData "ETH" "eth")) (by decide) (by decide) (by decide)

end Reckon
